import Mathlib

/-!
Verification of the simple-localtube ingestion pipeline.

This file gives a shallow embedding, in Lean, of the core of the
simple-localtube downloader and proves (or refutes) the specification
claims about it.  The embedded functions are direct translations of the
TypeScript source:

* `toVideoID`              — src/util.ts `toVideoID` (URL → video id)
* `nameExt`                — src/util.ts `nameExt`
* `lruGet`/`lruSet`/…      — src/util.ts `class LRUCache`
* `bannerFold`/`banner`    — src/get-channel-meta.ts banner selection reduce
* `processBatch`/`scanFrom`/`scanAll`/`getLatestVideoUrls`
                           — src/downloader/get-channel-video-ids.ts
* `validateStaged`/`addVideoIfNotExists`
                           — src/downloader/fetch-videos.ts `addVideoIfNotExists`
* `promoteStep`            — src/downloader/fetch-videos.ts main promotion loop body
* `runUpdates`/`ingestVideos`
                           — src/downloader/fetch-videos.ts main loops

External effects (the filesystem, the yt-dlp subprocess, the catalog
HTTP API) are modelled by explicit inputs (directory listings, booleans
for existence checks, a `known` predicate for catalog membership) and by
explicit event traces (`Effect`, `ScanTrace`) recording, in order, the
externally visible actions the code performs.
-/

namespace LocalTube

/-! ### URL parsing (src/util.ts `toVideoID`)

The source calls the WHATWG `new URL` parser, an external platform
builtin; its output is modelled by `JSURL` (the three fields the code
inspects), with `none` standing for a throw from `new URL` (which the
source catches and converts to `null`). -/

structure JSURL where
  hostname : String
  pathname : String
  /-- searchParams.get of the letter v; `none` models a null return. -/
  paramV : Option String
deriving DecidableEq, Repr

/-- Translation of src/util.ts `toVideoID`.  The argument is the result of
`new URL(url)`: `none` when the parser threw (the source catches this and
falls through to `return null`).  JavaScript treats the empty string as
falsy, hence the emptiness tests. -/
def toVideoID (parsed : Option JSURL) : Option String :=
  match parsed with
  | none => none
  | some u =>
    if u.hostname = "www.youtube.com" ∨ u.hostname = "youtube.com" ∨
        u.hostname = "m.youtube.com" then
      match u.paramV with
      | some v => if v ≠ "" then some v else none
      | none => none
    else if u.hostname = "youtu.be" then
      let res := u.pathname.drop 1
      if res.length > 0 then some res else none
    else
      none

/-- Model of JavaScript `String.prototype.endsWith` (suffix test on the
character sequence). -/
def jsEndsWith (s suffix : String) : Bool :=
  suffix.data.isSuffixOf s.data

/-- Model of JavaScript `split` with a single-character separator, on the
character list: `"a.b".split "." = ["a","b"]`, `"".split "." = [""]`. -/
def splitChars (sep : Char) : List Char → List (List Char)
  | [] => [[]]
  | c :: cs =>
    match splitChars sep cs with
    | [] => [[]]
    | h :: t => if c = sep then [] :: h :: t else (c :: h) :: t

/-- Model of JavaScript `file.split(".")`. -/
def splitOnDots (s : String) : List String :=
  (splitChars '.' s.data).map (fun l => String.mk l)

/-- Translation of src/util.ts `nameExt`: split the filename on the dot;
a name with no dot makes the source throw, modelled by `none`. -/
def nameExt (file : String) : Option (String × String) :=
  let split := splitOnDots file
  if split.length = 1 then none
  else some (String.intercalate "." split.dropLast, split.getLastD "")

/-- Translation of the subtitle renaming expression in fetch-videos.ts:
`sub.split(".").slice(-2).join(".")` (the trailing language tag plus the
vtt extension; `slice(-2)` of a shorter array is the whole array). -/
def lastTwoDotParts (s : String) : String :=
  let parts := splitOnDots s
  String.intercalate "." (parts.drop (parts.length - 2))

/-! ### LRUCache (src/util.ts `class LRUCache`)

A JavaScript `Map` iterates in insertion order and `delete` + `set`
moves a key to the end; the cache is therefore modelled as a key–value
list ordered oldest-first.  `maxSize` is passed explicitly where the
class stores it in a field. -/

/-- Lookup in the insertion-ordered map (JS `Map.prototype.get`). -/
def mapGet {K V : Type} [DecidableEq K] (c : List (K × V)) (k : K) : Option V :=
  (c.find? (fun e => e.1 = k)).map (fun e => e.2)

/-- Translation of `LRUCache.get`: a hit is deleted and re-inserted at the
end (most recently used); a miss leaves the cache unchanged. -/
def lruGet {K V : Type} [DecidableEq K] (c : List (K × V)) (k : K) :
    Option V × List (K × V) :=
  match mapGet c k with
  | some v => (some v, c.filter (fun e => e.1 ≠ k) ++ [(k, v)])
  | none => (none, c)

/-- Translation of `LRUCache.set`: an existing key is deleted and
re-inserted at the end with the new value; otherwise, if the cache is at
capacity, the first (least recently used) entry is deleted first. -/
def lruSet {K V : Type} [DecidableEq K] (maxSize : Nat) (c : List (K × V))
    (k : K) (v : V) : List (K × V) :=
  if (mapGet c k).isSome then
    c.filter (fun e => e.1 ≠ k) ++ [(k, v)]
  else if c.length ≥ maxSize then
    c.drop 1 ++ [(k, v)]
  else
    c ++ [(k, v)]

/-- Translation of `LRUCache.delete` (JS `Map.prototype.delete`). -/
def lruDelete {K V : Type} [DecidableEq K] (c : List (K × V)) (k : K) :
    List (K × V) :=
  c.filter (fun e => e.1 ≠ k)

/-- One cache operation, for quantifying over operation sequences. -/
inductive LRUOp (K V : Type) where
  | get (k : K)
  | set (k : K) (v : V)
  | del (k : K)
  | clear
deriving DecidableEq, Repr

/-- Apply a single operation to the cache state. -/
def applyLRUOp {K V : Type} [DecidableEq K] (maxSize : Nat)
    (c : List (K × V)) : LRUOp K V → List (K × V)
  | .get k => (lruGet c k).2
  | .set k v => lruSet maxSize c k v
  | .del k => lruDelete c k
  | .clear => []

/-- Run a sequence of operations starting from the freshly constructed
(empty) cache. -/
def runLRUOps {K V : Type} [DecidableEq K] (maxSize : Nat)
    (ops : List (LRUOp K V)) : List (K × V) :=
  ops.foldl (applyLRUOp maxSize) []

/-! ### Banner selection (src/get-channel-meta.ts `fetchMetaForChannel`)

The channel metadata document's `thumbnails` array.  Width can be absent
(`none`, JS `null`/`undefined`); dimensions are modelled as rationals so
the aspect-ratio division `t.width / t.height` is exact (faithful to the
JS float division for the positive dimensions real documents carry). -/

structure Thumb where
  id : String
  width : Option ℚ
  height : ℚ
  url : String
deriving DecidableEq, Repr

/-- Translation of the reducer in get-channel-meta.ts line 78:
`(acc, t) => t.width == null || t.width / t.height <= 2 ? acc
           : acc == null ? t : t.width < acc.width ? acc : t`.
The inner `acc.width` access can in fact only see accumulators with a
width (they were admitted through the first test); JS would compare
against `undefined` (false) and pick `t`, which the wildcard branch
mirrors. -/
def bannerFold (acc : Option Thumb) (t : Thumb) : Option Thumb :=
  match t.width with
  | none => acc
  | some w =>
    if w / t.height ≤ 2 then acc
    else
      match acc with
      | none => some t
      | some a =>
        match a.width with
        | none => some t
        | some aw => if w < aw then some a else some t

/-- Translation of `contents.thumbnails.reduce(…, null)`: the banner
chosen by `fetchMetaForChannel`; `none` means no banner is fetched. -/
def banner (thumbnails : List Thumb) : Option Thumb :=
  thumbnails.foldl bannerFold none

/-- A thumbnail passes the reducer's admission test: it has width
information and `width / height ≤ 2` is false. -/
def qualifies (t : Thumb) : Prop :=
  ∃ w, t.width = some w ∧ ¬w / t.height ≤ 2

instance (t : Thumb) : Decidable (qualifies t) := by
  unfold qualifies
  cases t.width <;> simp <;> infer_instance

/-! ### Playlist scanner (src/downloader/get-channel-video-ids.ts)

`getLatestVideoUrls` shells out to yt-dlp for successive 100-item
windows of the channel's newest-first video listing and asks the catalog
(`hasVideo`) about each entry.  The external world is modelled by:

* `listing` — the channel's full newest-first listing, each entry being
  the `new URL` parse of one non-empty trimmed stdout line, so that
  window `startIndex:endIndex` returns `listing` entries
  `startIndex … endIndex` (yt-dlp's `--playlist-items`);
* `known`   — catalog membership (the `hasVideo` HTTP call).

The run is recorded in a `ScanTrace`: the size of every window
requested, every id passed to `hasVideo` in order, every listing entry
examined, and the number of inter-window pauses. -/

/-- Batch size: `YT_DLP_BATCH_SIZE = 100`. -/
def YT_DLP_BATCH_SIZE : Nat := 100

/-- Outcome of the `for (const url of batchUrls)` loop over one window. -/
structure BatchOut where
  /-- ids appended to `newVideoIds`, in order. -/
  pushed : List String
  /-- ids passed to `hasVideo`, in order. -/
  queried : List String
  /-- listing entries examined (parsed), in order. -/
  examined : List (Option JSURL)
  /-- the thrown error message, if the loop threw. -/
  err : Option String
deriving DecidableEq, Repr

/-- Translation of the per-window loop of `getLatestVideoUrls`: parse each
URL (throwing on failure), query the catalog, push unknown ids; in
incremental mode (`all = false`) a known id breaks out of the loop. -/
def processBatch (known : String → Bool) (all : Bool) :
    List (Option JSURL) → BatchOut
  | [] => ⟨[], [], [], none⟩
  | u :: rest =>
    match toVideoID u with
    | none => ⟨[], [], [u], some "failed to read video ID from url"⟩
    | some id =>
      if known id = false then
        let o := processBatch known all rest
        ⟨id :: o.pushed, id :: o.queried, u :: o.examined, o.err⟩
      else if all = false then
        ⟨[], [id], [u], none⟩
      else
        let o := processBatch known all rest
        ⟨o.pushed, id :: o.queried, u :: o.examined, o.err⟩

instance {ε α : Type} [DecidableEq ε] [DecidableEq α] : DecidableEq (Except ε α) :=
  fun a b =>
    match a, b with
    | .ok x, .ok y =>
      if h : x = y then .isTrue (by rw [h]) else .isFalse (by simp [h])
    | .error x, .error y =>
      if h : x = y then .isTrue (by rw [h]) else .isFalse (by simp [h])
    | .ok _, .error _ => .isFalse (by simp)
    | .error _, .ok _ => .isFalse (by simp)

/-- Trace of one whole `getLatestVideoUrls` run. -/
structure ScanTrace where
  /-- number of URLs returned by each yt-dlp invocation, in order. -/
  windows : List Nat
  /-- ids passed to `hasVideo`, in order. -/
  queried : List String
  /-- listing entries examined, in order. -/
  examined : List (Option JSURL)
  /-- number of executed `setTimeout(…, YT_DLP_PAUSE_MS)` pauses. -/
  delays : Nat
  /-- the returned id list, or the thrown error. -/
  result : Except String (List String)
deriving DecidableEq, Repr

/-- Translation of the `while (true)` loop of `getLatestVideoUrls` in
incremental mode (`all = false`), from the iteration whose window starts
at the head of `rest` (`rest = listing.drop (startIndex - 1)`).  An empty
window breaks; otherwise the window is processed, and the loop pauses
and continues exactly when the window was full.  Note that the known-video
`break` of `processBatch` only leaves the inner `for` loop: the `while`
loop goes on to the next window whenever the current one was full.
The `fuel` argument only bounds the number of iterations so the
recursion is structural; every iteration that recurses consumes
`YT_DLP_BATCH_SIZE` listing entries, so `rest.length + 1` iterations
always suffice and the fuel-exhausted base case is unreachable from
`scanFrom`. -/
def scanWindows (known : String → Bool) : Nat → List (Option JSURL) → ScanTrace
  | 0, _ =>
    { windows := [], queried := [], examined := [], delays := 0, result := .ok [] }
  | fuel + 1, rest =>
    let window := rest.take YT_DLP_BATCH_SIZE
    if window.length = 0 then
      { windows := [0], queried := [], examined := [], delays := 0, result := .ok [] }
    else
      let o := processBatch known false window
      match o.err with
      | some e =>
        { windows := [window.length], queried := o.queried, examined := o.examined,
          delays := 0, result := .error e }
      | none =>
        if window.length = YT_DLP_BATCH_SIZE then
          let t := scanWindows known fuel (rest.drop YT_DLP_BATCH_SIZE)
          { windows := window.length :: t.windows,
            queried := o.queried ++ t.queried,
            examined := o.examined ++ t.examined,
            delays := 1 + t.delays,
            result :=
              match t.result with
              | .ok ids => .ok (o.pushed ++ ids)
              | .error e => .error e }
        else
          { windows := [window.length], queried := o.queried, examined := o.examined,
            delays := 0, result := .ok o.pushed }

/-- The incremental-mode scan over the whole newest-first `listing`
(`startIndex = 1`), with enough fuel for the loop to run to completion. -/
def scanFrom (known : String → Bool) (rest : List (Option JSURL)) : ScanTrace :=
  scanWindows known (rest.length + 1) rest

/-- Translation of the `while (true)` loop in full-backfill mode
(`all = true`): the yt-dlp command has no `--playlist-items` flag, so the
single window is the whole listing, and `if (all) break` ends the loop
after one iteration (after a pause when the window happened to contain
exactly the batch size of items). -/
def scanAll (known : String → Bool) (listing : List (Option JSURL)) : ScanTrace :=
  if listing.length = 0 then
    { windows := [0], queried := [], examined := [], delays := 0, result := .ok [] }
  else
    let o := processBatch known true listing
    match o.err with
    | some e =>
      { windows := [listing.length], queried := o.queried, examined := o.examined,
        delays := 0, result := .error e }
    | none =>
      { windows := [listing.length], queried := o.queried, examined := o.examined,
        delays := if listing.length = YT_DLP_BATCH_SIZE then 1 else 0,
        result := .ok o.pushed }

/-- Translation of `getLatestVideoUrls(server, channelId, all)`. -/
def getLatestVideoUrls (known : String → Bool) (all : Bool)
    (listing : List (Option JSURL)) : ScanTrace :=
  if all then scanAll known listing else scanFrom known listing

/-! ### Video ingestor (src/downloader/fetch-videos.ts `addVideoIfNotExists`)

The externally visible actions of one `addVideoIfNotExists` call, in
program order.  The filesystem is modelled by explicit inputs: whether
the permanent video directory exists, whether it already holds a media
file (`video.mp4`/`video.webm`) and the metadata file (`data.json`), and
the list of filenames yt-dlp left in the staging temp directory. -/

inductive Effect where
  /-- `fs.mkdirSync(videoDir, { recursive: true })`. -/
  | mkdirVideoDir
  /-- the yt-dlp download invocation in the staging temp directory. -/
  | download
  /-- a `move` of one staged file into the permanent video directory,
  under the given canonical name. -/
  | moveIntoVideoDir (name : String)
  /-- the `add-video` POST registering the video with the catalog. -/
  | registerCatalog
deriving DecidableEq, Repr

/-- Translation of the staged-download validation and commit block of
`addVideoIfNotExists` (the body of the `!metadataExists && !videoFileExists`
branch after the yt-dlp call): count the staged metadata, media,
thumbnail and subtitle files, throw on any deviation, and otherwise move
each file to its canonical name.  All four checks precede every move. -/
def validateStaged (files : List String) : Except String (List Effect) :=
  let json := files.filter (fun f => jsEndsWith f ".json")
  if json.length ≠ 1 then .error "got not exactly 1 json file after download"
  else
    let video := files.filter (fun f => jsEndsWith f ".webm" || jsEndsWith f ".mp4")
    if video.length ≠ 1 then .error "got not exactly 1 video file after download"
    else
      let thumb := files.filter (fun f =>
        jsEndsWith f ".png" || jsEndsWith f ".webp" || jsEndsWith f ".jpg" || jsEndsWith f ".gif")
      if thumb.length ≠ 1 then .error "got not exactly 1 thumb file after download"
      else
        let subs := files.filter (fun f => jsEndsWith f ".vtt")
        if files.length ≠ subs.length + 3 then .error "got unexpected files after download"
        else
          match nameExt (video.headD ""), nameExt (thumb.headD "") with
          | some (_, vext), some (_, text) =>
            .ok ([.moveIntoVideoDir "data.json",
                  .moveIntoVideoDir ("video." ++ vext),
                  .moveIntoVideoDir ("thumb." ++ text)] ++
                 subs.map (fun sub => .moveIntoVideoDir ("subs." ++ lastTwoDotParts sub)))
          | _, _ => .error "no extension"

/-- Translation of `addVideoIfNotExists(channelId, videoId)`.  Inputs:
`known` is the catalog's `hasVideo` answer, `dirExists`/`hasVideoFile`/
`hasMetadata` describe the permanent video directory, and `staged` is
the staging directory listing produced by a yt-dlp run (consulted only
on the download path).  Output: the effects performed, in order, and the
thrown error message if any.  `videoFromDisk` and the `add-video` POST
are modelled as succeeding once the metadata file is in place (they are
external reads/calls past the behaviour the claims are about). -/
def addVideoIfNotExists (known dirExists hasVideoFile hasMetadata : Bool)
    (staged : List String) : List Effect × Option String :=
  if known then ([], none)
  else
    let mk : List Effect := if dirExists then [] else [.mkdirVideoDir]
    if hasMetadata && !hasVideoFile then
      (mk, some "found metadata, but no video")
    else if !hasMetadata && hasVideoFile then
      (mk, some "found video, but no data.json")
    else if !hasMetadata && !hasVideoFile then
      match validateStaged staged with
      | .error e => (mk ++ [.download], some e)
      | .ok moves => (mk ++ [.download] ++ moves ++ [.registerCatalog], none)
    else
      (mk ++ [.registerCatalog], none)

/-! ### Subscription state (src/downloader/fetch-videos.ts)

The persisted subscriptions document and the body of the promotion
loop.  `titles` is the JSON object, modelled as an association list. -/

structure SubscriptionStatus where
  subscribing : List String
  subscribed : List String
  titles : List (String × String)
deriving DecidableEq, Repr

/-- Translation of one iteration of the `while (status.subscribing.length
> 0)` loop, from the point where `subscribe(channel)` has returned:
re-read the status document (`freshStatus`, an input here because the
file may have been modified while the backfill ran), throw when the
channel is in both lists, skip (`continue`) when it is no longer in
`subscribing` or already in `subscribed`, and otherwise move it from
`subscribing` to `subscribed`, drop its pending title, and persist.  The
returned `Bool` records whether `writeStatus()` ran. -/
def promoteStep (channel : String) (freshStatus : SubscriptionStatus) :
    Except String (SubscriptionStatus × Bool) :=
  let isInSubscribing := freshStatus.subscribing.contains channel
  let isInSubscribed := freshStatus.subscribed.contains channel
  if isInSubscribing && isInSubscribed then
    .error ("Channel " ++ channel ++ " found in both subscribing and subscribed lists")
  else if !isInSubscribing || isInSubscribed then
    .ok (freshStatus, false)
  else
    .ok ({ subscribing := freshStatus.subscribing.filter (fun id => id ≠ channel),
           subscribed := freshStatus.subscribed ++ [channel],
           titles := freshStatus.titles.filter (fun e => e.1 ≠ channel) },
         true)

/-! ### The subscription loops (src/downloader/fetch-videos.ts)

The per-channel update loop and the per-video ingestion loop.  Each
channel's (or video's) processing is abstracted as a function to
`Except`; the loops record which items were attempted, in order, paired
with the error that escaped the loop, if any — neither loop catches
anything. -/

/-- Translation of `for (const channel of status.subscribed) {
if (subbed.has(channel)) continue; await updateExisting(channel); }`:
`subbed` holds the channels already handled by the backfill phase this
run.  First component: channels on which `updateExisting` was invoked,
in order; second: the error that aborted the loop, if any. -/
def runUpdates (subbed : String → Bool) (updateExisting : String → Except String Unit) :
    List String → List String × Option String
  | [] => ([], none)
  | c :: restChannels =>
    if subbed c then runUpdates subbed updateExisting restChannels
    else
      match updateExisting c with
      | .error e => ([c], some e)
      | .ok _ =>
        (c :: (runUpdates subbed updateExisting restChannels).1,
         (runUpdates subbed updateExisting restChannels).2)

/-- Translation of the per-video loop of `updateExisting` /
`subscribe`: `for (const videoId of videoIds) await
addVideoIfNotExists(channelId, videoId);`.  First component: videos on
which ingestion was invoked, in order; second: the error that aborted
the loop, if any. -/
def ingestVideos (ingest : String → Except String Unit) :
    List String → List String × Option String
  | [] => ([], none)
  | v :: restVideos =>
    match ingest v with
    | .error e => ([v], some e)
    | .ok _ =>
      (v :: (ingestVideos ingest restVideos).1,
       (ingestVideos ingest restVideos).2)

/-! ### Concrete scenario data used by evaluations, counterexamples and
witnesses -/

/-- A listing entry whose video id is "known" (catalog member below). -/
def urlKnown : Option JSURL := some ⟨"youtu.be", "/known", none⟩

/-- A listing entry whose video id is "fresh" (not in the catalog). -/
def urlFresh : Option JSURL := some ⟨"youtu.be", "/fresh", none⟩

/-- A listing entry `toVideoID` cannot parse (unrecognized hostname). -/
def urlBad : Option JSURL := some ⟨"bad.example", "/x", none⟩

/-- Catalog membership: exactly the video id "known" is present. -/
def demoKnown : String → Bool := fun s => s = "known"

/-- A 101-item newest-first listing whose first (newest) item is already
known to the catalog and whose remaining 100 items are not. -/
def listingKnownFirst : List (Option JSURL) := urlKnown :: List.replicate 100 urlFresh

/-- A 2-item listing: the known video followed by an unparseable URL. -/
def listingKnownThenBad : List (Option JSURL) := [urlKnown, urlBad]

/-! ### C1 — early-stop correctness of the incremental scan -/

/-- C1 (code bug, evaluation at the failing input): on an incremental
scan of `listingKnownFirst` — a newest-first listing whose k-th item with
k = 1 is the first video already known to the catalog — the claim
demands that exactly k − 1 = 0 identifiers be returned, that no window
past the one containing position k be requested, and that no catalog
membership query be made past position k.  The code instead requests a
second window (the `break` on a known video only leaves the inner `for`
loop, and the full first window makes the `while` loop continue past its
own "Stopping search" log line), queries the catalog about the item at
position 101, and returns that item's identifier. -/
theorem c1_early_stop_violated :
    (getLatestVideoUrls demoKnown false listingKnownFirst).result = .ok ["fresh"] ∧
    (getLatestVideoUrls demoKnown false listingKnownFirst).windows = [100, 1] ∧
    (getLatestVideoUrls demoKnown false listingKnownFirst).queried = ["known", "fresh"] ∧
    (getLatestVideoUrls demoKnown false listingKnownFirst).delays = 1 := by
  refine ⟨?_, ?_, ?_, ?_⟩ <;> decide

/-! ### C2 — validation before commit -/

/-- Any staged directory listing violating the file-shape invariant makes
`validateStaged` throw (all four checks precede the first move). -/
theorem validateStaged_isError (files : List String)
    (hbad : ¬((files.filter (fun f => jsEndsWith f ".json")).length = 1 ∧
        (files.filter (fun f => jsEndsWith f ".webm" || jsEndsWith f ".mp4")).length = 1 ∧
        (files.filter (fun f => jsEndsWith f ".png" || jsEndsWith f ".webp" ||
          jsEndsWith f ".jpg" || jsEndsWith f ".gif")).length = 1 ∧
        files.length = (files.filter (fun f => jsEndsWith f ".vtt")).length + 3)) :
    ∃ e, validateStaged files = Except.error e := by
  unfold validateStaged
  by_cases h1 : (files.filter (fun f => jsEndsWith f ".json")).length = 1
  · by_cases h2 : (files.filter (fun f => jsEndsWith f ".webm" || jsEndsWith f ".mp4")).length = 1
    · by_cases h3 : (files.filter (fun f => jsEndsWith f ".png" || jsEndsWith f ".webp" ||
          jsEndsWith f ".jpg" || jsEndsWith f ".gif")).length = 1
      · by_cases h4 : files.length = (files.filter (fun f => jsEndsWith f ".vtt")).length + 3
        · exact absurd ⟨h1, h2, h3, h4⟩ hbad
        · exact ⟨"got unexpected files after download", by simp [h1, h2, h3, h4]⟩
      · exact ⟨"got not exactly 1 thumb file after download", by simp [h1, h2, h3]⟩
    · exact ⟨"got not exactly 1 video file after download", by simp [h1, h2]⟩
  · exact ⟨"got not exactly 1 json file after download", by simp [h1]⟩

/-- C2: for every staged download directory that does not contain exactly
one metadata (.json) file, exactly one media file (.mp4/.webm), exactly
one thumbnail file (.png/.webp/.jpg/.gif) and a total file count equal to
the subtitle (.vtt) count plus 3, `addVideoIfNotExists` (on the download
path: video not in catalog, permanent directory without media and
metadata) throws, and no file is moved into the permanent video
directory. -/
theorem c2_integrity_violation (dirExists : Bool) (staged : List String)
    (hbad : ¬((staged.filter (fun f => jsEndsWith f ".json")).length = 1 ∧
        (staged.filter (fun f => jsEndsWith f ".webm" || jsEndsWith f ".mp4")).length = 1 ∧
        (staged.filter (fun f => jsEndsWith f ".png" || jsEndsWith f ".webp" ||
          jsEndsWith f ".jpg" || jsEndsWith f ".gif")).length = 1 ∧
        staged.length = (staged.filter (fun f => jsEndsWith f ".vtt")).length + 3)) :
    (addVideoIfNotExists false dirExists false false staged).2.isSome = true ∧
    ∀ n, Effect.moveIntoVideoDir n ∉ (addVideoIfNotExists false dirExists false false staged).1 := by
  obtain ⟨e, he⟩ := validateStaged_isError staged hbad
  constructor
  · simp [addVideoIfNotExists, he]
  · intro n
    cases dirExists <;> simp [addVideoIfNotExists, he]

/-- C2 witness: a staged directory with two media-container files is
rejected with an error and without moving anything. -/
theorem c2_integrity_violation_witness :
    (addVideoIfNotExists false false false false ["a.json", "b.mp4", "c.mp4", "d.png"]).2.isSome = true ∧
    Effect.moveIntoVideoDir "video.mp4" ∉
      (addVideoIfNotExists false false false false ["a.json", "b.mp4", "c.mp4", "d.png"]).1 :=
  ⟨(c2_integrity_violation false ["a.json", "b.mp4", "c.mp4", "d.png"] (by decide)).1,
   (c2_integrity_violation false ["a.json", "b.mp4", "c.mp4", "d.png"] (by decide)).2 "video.mp4"⟩

/-! ### C3 — new-video triage -/

/-- C3: for a video not yet known to the catalog, `addVideoIfNotExists`
with both `data.json` and a media file present performs only catalog
registration (no download, no move); with exactly one of the two present
it throws the referential-inconsistency error and performs nothing
beyond the initial directory creation; with neither present it proceeds
to the staging download. -/
theorem c3_new_video_triage (dirExists : Bool) (staged : List String) :
    addVideoIfNotExists false dirExists true true staged =
      ((if dirExists then [] else [Effect.mkdirVideoDir]) ++ [Effect.registerCatalog], none) ∧
    addVideoIfNotExists false dirExists false true staged =
      ((if dirExists then [] else [Effect.mkdirVideoDir]), some "found metadata, but no video") ∧
    addVideoIfNotExists false dirExists true false staged =
      ((if dirExists then [] else [Effect.mkdirVideoDir]), some "found video, but no data.json") ∧
    Effect.download ∈ (addVideoIfNotExists false dirExists false false staged).1 := by
  refine ⟨?_, ?_, ?_, ?_⟩
  · cases dirExists <;> simp [addVideoIfNotExists]
  · cases dirExists <;> simp [addVideoIfNotExists]
  · cases dirExists <;> simp [addVideoIfNotExists]
  · cases h : validateStaged staged <;> cases dirExists <;>
      simp [addVideoIfNotExists, h]

/-! ### C4 / C5 — promotion and the mutual-exclusion check -/

/-- The promotion loop throws exactly when the just-subscribed channel is
in both lists of the re-read document. -/
theorem promoteStep_both (ch : String) (st : SubscriptionStatus)
    (h1 : ch ∈ st.subscribing) (h2 : ch ∈ st.subscribed) :
    promoteStep ch st =
      .error ("Channel " ++ ch ++ " found in both subscribing and subscribed lists") := by
  simp [promoteStep, List.elem_iff, h1, h2]

/-- A channel no longer in `subscribing` is skipped silently: the status
is left unchanged and `writeStatus` does not run. -/
theorem promoteStep_skip (ch : String) (st : SubscriptionStatus)
    (h : ch ∉ st.subscribing) :
    promoteStep ch st = .ok (st, false) := by
  simp [promoteStep, List.elem_iff, h]

/-- The normal promotion: in `subscribing`, not in `subscribed`. -/
theorem promoteStep_promote (ch : String) (st : SubscriptionStatus)
    (h1 : ch ∈ st.subscribing) (h2 : ch ∉ st.subscribed) :
    promoteStep ch st =
      .ok ({ subscribing := st.subscribing.filter (fun id => id ≠ ch),
             subscribed := st.subscribed ++ [ch],
             titles := st.titles.filter (fun e => e.1 ≠ ch) }, true) := by
  simp [promoteStep, List.elem_iff, h1, h2]

/-- C4 counterexample: the claim says the pipeline raises a fatal error
when the promoted id is already present in `subscribed`, and likewise
when it is absent from `subscribing` at promotion time.  At the concrete
re-read document with the channel absent from `subscribing` and already
in `subscribed`, the code instead returns successfully, leaves the
document unchanged, and does not persist (`continue` in the loop) — no
error of any kind is raised. -/
theorem c4_counterexample :
    promoteStep "c" ⟨[], ["c"], []⟩ = .ok (⟨[], ["c"], []⟩, false) := by decide

/-- C4 (amended): after a channel's first sync, the loop re-reads the
state document; if the channel is in both lists it throws a fatal
consistency error; if it is still in `subscribing` and not in
`subscribed` it is moved from `subscribing` to `subscribed`, its pending
title is removed, and the document is persisted immediately
(`writeStatus` runs, the returned flag); if it is no longer in
`subscribing` — in particular when it is already present in `subscribed`
— the promotion is skipped silently with no error and no write. -/
theorem c4_promotion (ch : String) (st : SubscriptionStatus) :
    (ch ∈ st.subscribing → ch ∈ st.subscribed →
      promoteStep ch st =
        .error ("Channel " ++ ch ++ " found in both subscribing and subscribed lists")) ∧
    (ch ∈ st.subscribing → ch ∉ st.subscribed →
      promoteStep ch st =
        .ok ({ subscribing := st.subscribing.filter (fun id => id ≠ ch),
               subscribed := st.subscribed ++ [ch],
               titles := st.titles.filter (fun e => e.1 ≠ ch) }, true)) ∧
    (ch ∉ st.subscribing → promoteStep ch st = .ok (st, false)) :=
  ⟨promoteStep_both ch st, promoteStep_promote ch st, promoteStep_skip ch st⟩

/-- C4 witness: a concrete promotion moves the channel, drops its title,
and persists; a concrete skip leaves everything alone. -/
theorem c4_promotion_witness :
    promoteStep "x" ⟨["x", "y"], ["z"], [("x", "T"), ("y", "U")]⟩ =
      .ok (⟨["y"], ["z", "x"], [("y", "U")]⟩, true) ∧
    promoteStep "q" ⟨["x"], [], []⟩ = .ok (⟨["x"], [], []⟩, false) := by
  constructor
  · have h := (c4_promotion "x" ⟨["x", "y"], ["z"], [("x", "T"), ("y", "U")]⟩).2.1
      (by decide) (by decide)
    rw [h]; decide
  · exact (c4_promotion "q" ⟨["x"], [], []⟩).2.2 (by decide)

/-- C5 counterexample: the claim says that loading a state document with
a ChannelID present in both lists raises a fatal error.  Here the
re-read document has "b" in both `subscribing` and `subscribed`, yet the
iteration processing channel "a" raises no error at all — it promotes
"a" and persists a document that still has "b" in both lists. -/
theorem c5_counterexample :
    promoteStep "a" ⟨["a", "b"], ["b"], []⟩ =
      .ok (⟨["b"], ["b", "a"], []⟩, true) := by decide

/-- C5 (amended): the dual-membership check guards only the channel
currently being promoted: if that channel is in both lists a fatal error
is raised.  Mutual exclusion is preserved rather than checked globally:
when the loaded document's lists are disjoint, the document left by the
promotion step (persisted or not) again has disjoint lists.  A foreign
ChannelID present in both lists is not detected at load time
(`c5_counterexample`). -/
theorem c5_mutual_exclusion (ch : String) (st : SubscriptionStatus) :
    (ch ∈ st.subscribing → ch ∈ st.subscribed → ∃ e, promoteStep ch st = .error e) ∧
    (∀ st' w, (∀ x ∈ st.subscribing, x ∉ st.subscribed) →
      promoteStep ch st = .ok (st', w) →
      ∀ x ∈ st'.subscribing, x ∉ st'.subscribed) := by
  constructor
  · intro h1 h2
    exact ⟨_, promoteStep_both ch st h1 h2⟩
  · intro st' w hdisj hok x hx
    by_cases hin : ch ∈ st.subscribing
    · by_cases hsub : ch ∈ st.subscribed
      · rw [promoteStep_both ch st hin hsub] at hok
        cases hok
      · rw [promoteStep_promote ch st hin hsub] at hok
        cases hok
        simp only [List.mem_filter, decide_eq_true_eq] at hx
        simp only [List.mem_append, List.mem_singleton]
        rintro (hx' | rfl)
        · exact hdisj x hx.1 hx'
        · exact hx.2 rfl
    · rw [promoteStep_skip ch st hin] at hok
      cases hok
      exact hdisj x hx

/-- C5 witness: the dual-membership error fires for the promoted channel
itself, and a concrete promotion preserves disjointness. -/
theorem c5_mutual_exclusion_witness :
    (∃ e, promoteStep "a" ⟨["a"], ["a"], []⟩ = Except.error e) ∧ "y" ∉ ["x"] :=
  ⟨(c5_mutual_exclusion "a" ⟨["a"], ["a"], []⟩).1 (by decide) (by decide),
   (c5_mutual_exclusion "x" ⟨["x", "y"], [], []⟩).2 ⟨["y"], ["x"], []⟩ true
     (by decide) (by decide) "y" (by decide)⟩

/-! ### C6 — failure propagation in the subscription loops -/

/-- When the update loop finishes without an error it attempted exactly
the channels not already handled by the backfill phase, in order. -/
theorem runUpdates_ok_spec (subbed : String → Bool)
    (updateOne : String → Except String Unit) :
    ∀ channels, (runUpdates subbed updateOne channels).2 = none →
      (runUpdates subbed updateOne channels).1 = channels.filter (fun c => !subbed c)
  | [] => by simp [runUpdates]
  | c :: cs => by
    intro h
    by_cases hs : subbed c
    · simp only [runUpdates, if_pos hs] at h ⊢
      simp [hs, runUpdates_ok_spec subbed updateOne cs h]
    · simp only [runUpdates, if_neg hs] at h ⊢
      cases hu : updateOne c with
      | error e => simp [hu] at h
      | ok u =>
        simp only [hu] at h ⊢
        simp [hs, runUpdates_ok_spec subbed updateOne cs h]

/-- When the update loop aborts with an error, the listing splits at the
failing channel: everything before it was skipped or succeeded, the
failing channel's `updateExisting` threw exactly this error, and nothing
after it was attempted. -/
theorem runUpdates_error_spec (subbed : String → Bool)
    (updateOne : String → Except String Unit) :
    ∀ channels e, (runUpdates subbed updateOne channels).2 = some e →
      ∃ pre c post, channels = pre ++ c :: post ∧ subbed c = false ∧
        updateOne c = .error e ∧
        (∀ x ∈ pre, subbed x = true ∨ updateOne x = .ok ()) ∧
        (runUpdates subbed updateOne channels).1 = pre.filter (fun x => !subbed x) ++ [c]
  | [] => by intro e h; simp [runUpdates] at h
  | c :: cs => by
    intro e h
    by_cases hs : subbed c
    · simp only [runUpdates, if_pos hs] at h ⊢
      obtain ⟨pre, c', post, hcs, hc', he, hpre, hatt⟩ :=
        runUpdates_error_spec subbed updateOne cs e h
      refine ⟨c :: pre, c', post, by simp [hcs], hc', he, ?_, by simp [hs, hatt]⟩
      intro x hx
      rcases List.mem_cons.mp hx with rfl | hx'
      · exact Or.inl hs
      · exact hpre x hx'
    · simp only [runUpdates, if_neg hs] at h ⊢
      cases hu : updateOne c with
      | error e0 =>
        simp only [hu] at h ⊢
        simp only [Option.some.injEq] at h
        cases h
        exact ⟨[], c, cs, rfl, by simp [hs], hu, by simp, by simp⟩
      | ok u =>
        simp only [hu] at h ⊢
        obtain ⟨pre, c', post, hcs, hc', he, hpre, hatt⟩ :=
          runUpdates_error_spec subbed updateOne cs e h
        refine ⟨c :: pre, c', post, by simp [hcs], hc', he, ?_, by simp [hs, hatt]⟩
        intro x hx
        rcases List.mem_cons.mp hx with rfl | hx'
        · exact Or.inr (by cases u; exact hu)
        · exact hpre x hx'

/-- A video whose ingestion throws aborts the per-video loop at once. -/
theorem ingestVideos_head_error (ingest : String → Except String Unit)
    (v : String) (vs : List String) (e : String) (h : ingest v = .error e) :
    ingestVideos ingest (v :: vs) = ([v], some e) := by
  simp [ingestVideos, h]

/-- C6 counterexample: the claim says a failure in one channel is logged
and the loop continues to the next channel.  With two channels where the
first one's update throws, the loop's result shows the error escaping
and the attempted list stopping at the first channel — "c2" is never
processed. -/
theorem c6_counterexample :
    runUpdates (fun _ => false)
      (fun c => if c = "c1" then .error "boom" else .ok ()) ["c1", "c2"] =
      (["c1"], some "boom") := by decide

/-- C6 (amended): neither loop catches anything.  A failure while
processing one channel aborts the whole subscription loop — the error
propagates out and no later channel is attempted (rather than the loop
continuing with the next channel); a failure while ingesting one video
likewise aborts that channel's remaining videos immediately. -/
theorem c6_abort_semantics (subbed : String → Bool)
    (updateOne : String → Except String Unit) (channels : List String) :
    ((runUpdates subbed updateOne channels).2 = none →
      (runUpdates subbed updateOne channels).1 = channels.filter (fun c => !subbed c)) ∧
    (∀ e, (runUpdates subbed updateOne channels).2 = some e →
      ∃ pre c post, channels = pre ++ c :: post ∧ subbed c = false ∧
        updateOne c = .error e ∧
        (∀ x ∈ pre, subbed x = true ∨ updateOne x = .ok ()) ∧
        (runUpdates subbed updateOne channels).1 = pre.filter (fun x => !subbed x) ++ [c]) ∧
    (∀ (ingest : String → Except String Unit) (v : String) (vs : List String) e,
      ingest v = .error e → ingestVideos ingest (v :: vs) = ([v], some e)) :=
  ⟨runUpdates_ok_spec subbed updateOne channels,
   fun e => runUpdates_error_spec subbed updateOne channels e,
   fun ingest v vs e h => ingestVideos_head_error ingest v vs e h⟩

/-- C6 witness: concrete two-channel run where the first fails. -/
theorem c6_abort_semantics_witness :
    (∃ pre c post, (["c1", "c2"] : List String) = pre ++ c :: post ∧
      (fun _ => false : String → Bool) c = false ∧
      (fun c => if c = "c1" then Except.error "boom" else Except.ok ()) c = .error "boom" ∧
      (∀ x ∈ pre, (fun _ => false : String → Bool) x = true ∨
        (fun c => if c = "c1" then Except.error "boom" else Except.ok ()) x = .ok ()) ∧
      (runUpdates (fun _ => false)
          (fun c => if c = "c1" then Except.error "boom" else Except.ok ())
          ["c1", "c2"]).1 = pre.filter (fun x => !(fun _ => false : String → Bool) x) ++ [c]) ∧
    ingestVideos (fun _ => Except.error "vboom") ["v1", "v2"] = (["v1"], some "vboom") :=
  ⟨(c6_abort_semantics (fun _ => false)
      (fun c => if c = "c1" then Except.error "boom" else Except.ok ())
      ["c1", "c2"]).2.1 "boom" (by decide),
   (c6_abort_semantics (fun _ => false)
      (fun c => if c = "c1" then Except.error "boom" else Except.ok ())
      ["c1", "c2"]).2.2 (fun _ => Except.error "vboom") "v1" ["v2"] "vboom" rfl⟩

/-! ### C8 — pagination termination and pacing -/

/-- One unfolding of the window loop: the empty window ends the scan. -/
theorem scanWindows_step_empty (known : String → Bool) (fuel : Nat)
    (rest : List (Option JSURL)) (h : (rest.take YT_DLP_BATCH_SIZE).length = 0) :
    scanWindows known (fuel + 1) rest =
      { windows := [0], queried := [], examined := [], delays := 0,
        result := .ok [] } := by
  simp only [scanWindows, if_pos h]

/-- One unfolding of the window loop: a parse failure inside the window
throws out of the whole scan. -/
theorem scanWindows_step_err (known : String → Bool) (fuel : Nat)
    (rest : List (Option JSURL)) (e : String)
    (h0 : ¬(rest.take YT_DLP_BATCH_SIZE).length = 0)
    (herr : (processBatch known false (rest.take YT_DLP_BATCH_SIZE)).err = some e) :
    scanWindows known (fuel + 1) rest =
      { windows := [(rest.take YT_DLP_BATCH_SIZE).length],
        queried := (processBatch known false (rest.take YT_DLP_BATCH_SIZE)).queried,
        examined := (processBatch known false (rest.take YT_DLP_BATCH_SIZE)).examined,
        delays := 0, result := .error e } := by
  simp only [scanWindows, if_neg h0, herr]

/-- One unfolding of the window loop: after a full window the loop
pauses and continues with the next window. -/
theorem scanWindows_step_full (known : String → Bool) (fuel : Nat)
    (rest : List (Option JSURL))
    (h0 : ¬(rest.take YT_DLP_BATCH_SIZE).length = 0)
    (herr : (processBatch known false (rest.take YT_DLP_BATCH_SIZE)).err = none)
    (hfull : (rest.take YT_DLP_BATCH_SIZE).length = YT_DLP_BATCH_SIZE) :
    scanWindows known (fuel + 1) rest =
      { windows := (rest.take YT_DLP_BATCH_SIZE).length ::
          (scanWindows known fuel (rest.drop YT_DLP_BATCH_SIZE)).windows,
        queried := (processBatch known false (rest.take YT_DLP_BATCH_SIZE)).queried ++
          (scanWindows known fuel (rest.drop YT_DLP_BATCH_SIZE)).queried,
        examined := (processBatch known false (rest.take YT_DLP_BATCH_SIZE)).examined ++
          (scanWindows known fuel (rest.drop YT_DLP_BATCH_SIZE)).examined,
        delays := 1 + (scanWindows known fuel (rest.drop YT_DLP_BATCH_SIZE)).delays,
        result :=
          match (scanWindows known fuel (rest.drop YT_DLP_BATCH_SIZE)).result with
          | .ok ids =>
            .ok ((processBatch known false (rest.take YT_DLP_BATCH_SIZE)).pushed ++ ids)
          | .error e => .error e } := by
  simp only [scanWindows, if_neg h0, herr, if_pos hfull]

/-- One unfolding of the window loop: a non-full, non-empty window ends
the scan with its accumulated ids and no pause. -/
theorem scanWindows_step_last (known : String → Bool) (fuel : Nat)
    (rest : List (Option JSURL))
    (h0 : ¬(rest.take YT_DLP_BATCH_SIZE).length = 0)
    (herr : (processBatch known false (rest.take YT_DLP_BATCH_SIZE)).err = none)
    (hfull : ¬(rest.take YT_DLP_BATCH_SIZE).length = YT_DLP_BATCH_SIZE) :
    scanWindows known (fuel + 1) rest =
      { windows := [(rest.take YT_DLP_BATCH_SIZE).length],
        queried := (processBatch known false (rest.take YT_DLP_BATCH_SIZE)).queried,
        examined := (processBatch known false (rest.take YT_DLP_BATCH_SIZE)).examined,
        delays := 0,
        result := .ok (processBatch known false (rest.take YT_DLP_BATCH_SIZE)).pushed } := by
  simp only [scanWindows, if_neg h0, herr, if_neg hfull]

/-- Loop invariant of the incremental window loop, for any sufficient
fuel: some window is always requested; every window except the final one
returned exactly the batch size of items (equivalently, a window with
fewer items ends the scan with no further windows); and the number of
pauses equals the number of non-final windows, i.e. a pause is inserted
exactly after each full window that did not end the scan. -/
theorem scanWindows_pagination (known : String → Bool) :
    ∀ (fuel : Nat) (rest : List (Option JSURL)), rest.length < fuel →
      (scanWindows known fuel rest).windows ≠ [] ∧
      (∀ w ∈ (scanWindows known fuel rest).windows.dropLast, w = YT_DLP_BATCH_SIZE) ∧
      (scanWindows known fuel rest).delays =
        (scanWindows known fuel rest).windows.length - 1
  | 0, rest => by intro h; exact absurd h (Nat.not_lt_zero _)
  | fuel + 1, rest => by
    intro hfuel
    by_cases h0 : (rest.take YT_DLP_BATCH_SIZE).length = 0
    · rw [scanWindows_step_empty known fuel rest h0]
      simp
    · cases herr : (processBatch known false (rest.take YT_DLP_BATCH_SIZE)).err with
      | some e =>
        rw [scanWindows_step_err known fuel rest e h0 herr]
        simp
      | none =>
        by_cases hfull : (rest.take YT_DLP_BATCH_SIZE).length = YT_DLP_BATCH_SIZE
        · have hrest : (rest.drop YT_DLP_BATCH_SIZE).length < fuel := by
            simp only [List.length_take, List.length_drop, YT_DLP_BATCH_SIZE] at hfull ⊢
            omega
          obtain ⟨ih1, ih2, ih3⟩ :=
            scanWindows_pagination known fuel (rest.drop YT_DLP_BATCH_SIZE) hrest
          rw [scanWindows_step_full known fuel rest h0 herr hfull]
          refine ⟨by simp, ?_, ?_⟩
          · simp only
            rw [List.dropLast_cons_of_ne_nil ih1]
            intro w hw
            rcases List.mem_cons.mp hw with rfl | hw'
            · exact hfull
            · exact ih2 w hw'
          · have hlen : (scanWindows known fuel (rest.drop YT_DLP_BATCH_SIZE)).windows.length ≥ 1 :=
              List.length_pos.mpr ih1
            simp only [List.length_cons]
            omega
        · rw [scanWindows_step_last known fuel rest h0 herr hfull]
          simp

/-- C8: in every incremental scan, a window that returns fewer items
than the batch size (100) ends the scan — every non-final window
returned exactly `YT_DLP_BATCH_SIZE` items — and the 2000 ms inter-window
pause is inserted exactly once per non-final window, i.e. only after a
window that returned exactly the batch size of items. -/
theorem c8_pagination (known : String → Bool) (listing : List (Option JSURL)) :
    (∀ w ∈ (getLatestVideoUrls known false listing).windows.dropLast,
      w = YT_DLP_BATCH_SIZE) ∧
    (getLatestVideoUrls known false listing).delays =
      (getLatestVideoUrls known false listing).windows.length - 1 := by
  have h := scanWindows_pagination known (listing.length + 1) listing (Nat.lt_succ_self _)
  exact ⟨h.2.1, h.2.2⟩

/-- C8 witness: on the 101-item listing the non-final window (which is a
member of the dropLast of the window list) is full, and the pause count
equals the window count minus one. -/
theorem c8_pagination_witness :
    (100 : Nat) = YT_DLP_BATCH_SIZE ∧
    (getLatestVideoUrls demoKnown false listingKnownFirst).delays =
      (getLatestVideoUrls demoKnown false listingKnownFirst).windows.length - 1 :=
  ⟨(c8_pagination demoKnown listingKnownFirst).1 100 (by decide),
   (c8_pagination demoKnown listingKnownFirst).2⟩

/-! ### C9 — fail-fast on unparseable URLs -/

/-- The per-window loop throws exactly when one of the entries it
actually examined fails to parse (entries after an early stop are never
examined). -/
theorem processBatch_err_iff (known : String → Bool) (all : Bool) :
    ∀ batch, (processBatch known all batch).err.isSome = true ↔
      ∃ u ∈ (processBatch known all batch).examined, toVideoID u = none
  | [] => by simp [processBatch]
  | u :: rest => by
    have ih := processBatch_err_iff known all rest
    cases htv : toVideoID u with
    | none => simp [processBatch, htv]
    | some id =>
      cases hk : known id with
      | false =>
        simp only [processBatch, htv]
        simp [hk, ih, List.mem_cons, htv]
      | true =>
        cases hall : all with
        | false => simp [processBatch, htv, hk, htv]
        | true =>
          simp only [processBatch, htv]
          simp [hk, List.mem_cons, htv, processBatch_err_iff known true rest]

/-- The incremental scan's result is an error exactly when some examined
listing entry fails to parse, for any fuel. -/
theorem scanWindows_err_iff (known : String → Bool) :
    ∀ (fuel : Nat) (rest : List (Option JSURL)),
      (∃ e, (scanWindows known fuel rest).result = .error e) ↔
      ∃ u ∈ (scanWindows known fuel rest).examined, toVideoID u = none
  | 0, rest => by simp [scanWindows]
  | fuel + 1, rest => by
    by_cases h0 : (rest.take YT_DLP_BATCH_SIZE).length = 0
    · rw [scanWindows_step_empty known fuel rest h0]; simp
    · cases herr : (processBatch known false (rest.take YT_DLP_BATCH_SIZE)).err with
      | some e =>
        rw [scanWindows_step_err known fuel rest e h0 herr]
        simp only
        constructor
        · intro _
          exact (processBatch_err_iff known false _).mp (by rw [herr]; rfl)
        · intro _
          exact ⟨e, rfl⟩
      | none =>
        have hnone : ∀ u ∈ (processBatch known false
            (rest.take YT_DLP_BATCH_SIZE)).examined, ¬toVideoID u = none := by
          intro u hu hbad
          have hsome := (processBatch_err_iff known false _).mpr ⟨u, hu, hbad⟩
          rw [herr] at hsome
          cases hsome
        by_cases hfull : (rest.take YT_DLP_BATCH_SIZE).length = YT_DLP_BATCH_SIZE
        · rw [scanWindows_step_full known fuel rest h0 herr hfull]
          have ih := scanWindows_err_iff known fuel (rest.drop YT_DLP_BATCH_SIZE)
          simp only
          constructor
          · rintro ⟨e, he⟩
            cases ht : (scanWindows known fuel (rest.drop YT_DLP_BATCH_SIZE)).result with
            | ok ids => rw [ht] at he; cases he
            | error e' =>
              obtain ⟨u, hu, hbad⟩ := ih.mp ⟨e', ht⟩
              exact ⟨u, List.mem_append_right _ hu, hbad⟩
          · rintro ⟨u, hu, hbad⟩
            rcases List.mem_append.mp hu with h | h
            · exact absurd hbad (hnone u h)
            · obtain ⟨e', ht⟩ := ih.mpr ⟨u, h, hbad⟩
              exact ⟨e', by rw [ht]⟩
        · rw [scanWindows_step_last known fuel rest h0 herr hfull]
          simp only
          constructor
          · rintro ⟨e, he⟩
            cases he
          · rintro ⟨u, hu, hbad⟩
            exact absurd hbad (hnone u hu)

/-- Same characterization for the full-backfill mode (single window). -/
theorem scanAll_err_iff (known : String → Bool) (listing : List (Option JSURL)) :
    (∃ e, (scanAll known listing).result = .error e) ↔
    ∃ u ∈ (scanAll known listing).examined, toVideoID u = none := by
  by_cases h0 : listing.length = 0
  · simp [scanAll, h0]
  · cases herr : (processBatch known true listing).err with
    | some e =>
      simp only [scanAll, if_neg h0, herr]
      constructor
      · intro _
        exact (processBatch_err_iff known true _).mp (by rw [herr]; rfl)
      · intro _
        exact ⟨e, rfl⟩
    | none =>
      simp only [scanAll, if_neg h0, herr]
      constructor
      · rintro ⟨e, he⟩
        cases he
      · rintro ⟨u, hu, hbad⟩
        have hsome := (processBatch_err_iff known true _).mpr ⟨u, hu, hbad⟩
        rw [herr] at hsome
        cases hsome

/-- C9 counterexample: the claim says any URL in any fetched window that
cannot be parsed aborts the entire scan.  Here the single fetched window
contains `urlBad` with `toVideoID urlBad = none`, yet the scan returns
successfully with the empty list: `urlBad` sits after the first known
video of its window, so the early-stop `break` means it is never even
examined — it is skipped silently rather than aborting the scan. -/
theorem c9_counterexample :
    toVideoID urlBad = none ∧ urlBad ∈ listingKnownThenBad ∧
    (getLatestVideoUrls demoKnown false listingKnownThenBad).windows = [2] ∧
    (getLatestVideoUrls demoKnown false listingKnownThenBad).result = .ok [] := by
  refine ⟨?_, ?_, ?_, ?_⟩ <;> decide

/-- C9 (amended): in both modes, the scan throws exactly when one of the
listing entries it examined fails to parse — an examined unparseable URL
always aborts the whole scan with an error and no partial identifier
list, but entries positioned after an early stop are never examined and
so cannot trigger the abort.  `toVideoID` itself is total: on every
parse result it returns an identifier or null (the source wraps the URL
parser in try/catch), never an exception. -/
theorem c9_parse_failure_abort (known : String → Bool) (all : Bool)
    (listing : List (Option JSURL)) :
    ((∃ e, (getLatestVideoUrls known all listing).result = .error e) ↔
      ∃ u ∈ (getLatestVideoUrls known all listing).examined, toVideoID u = none) ∧
    ∀ u : Option JSURL, (toVideoID u).isSome = true ∨ toVideoID u = none := by
  constructor
  · cases all
    · simpa only [getLatestVideoUrls, if_neg Bool.false_ne_true, scanFrom] using
        scanWindows_err_iff known (listing.length + 1) listing
    · simpa only [getLatestVideoUrls, if_pos rfl] using scanAll_err_iff known listing
  · intro u
    cases h : toVideoID u with
    | none => exact Or.inr rfl
    | some id => exact Or.inl rfl

/-- C9 witness: a lone unparseable URL aborts a concrete scan, and
`toVideoID` is total at a concrete input. -/
theorem c9_parse_failure_abort_witness :
    (∃ e, (getLatestVideoUrls demoKnown false [urlBad]).result = Except.error e) ∧
    ((toVideoID urlBad).isSome = true ∨ toVideoID urlBad = none) :=
  ⟨((c9_parse_failure_abort demoKnown false [urlBad]).1).mpr ⟨urlBad, by decide, by decide⟩,
   (c9_parse_failure_abort demoKnown false [urlBad]).2 urlBad⟩

/-! ### C7 — banner selection -/

/-- A thumbnail failing the admission test leaves the accumulator. -/
theorem bannerFold_not_qual (acc : Option Thumb) (t : Thumb) (h : ¬qualifies t) :
    bannerFold acc t = acc := by
  cases hw : t.width with
  | none => simp [bannerFold, hw]
  | some w =>
    have hle : w / t.height ≤ 2 := by
      by_contra hgt
      exact h ⟨w, hw, hgt⟩
    simp [bannerFold, hw, hle]

/-- A qualifying thumbnail always leaves some banner candidate. -/
theorem bannerFold_qual_isSome (acc : Option Thumb) (t : Thumb) (h : qualifies t) :
    ∃ x, bannerFold acc t = some x := by
  obtain ⟨w, hw, hle⟩ := h
  simp only [bannerFold, hw, if_neg hle]
  cases acc with
  | none => exact ⟨t, rfl⟩
  | some a =>
    dsimp only
    cases haw : a.width with
    | none => simp only [haw]; exact ⟨t, rfl⟩
    | some aw =>
      simp only [haw]
      by_cases hlt : w < aw
      · exact ⟨a, by rw [if_pos hlt]⟩
      · exact ⟨t, by rw [if_neg hlt]⟩

/-- A qualifying thumbnail against an accumulator with width keeps the
wider of the two (the later one on ties). -/
theorem bannerFold_qual_some (t a : Thumb) (w aw : ℚ)
    (hw : t.width = some w) (hle : ¬w / t.height ≤ 2) (haw : a.width = some aw) :
    bannerFold (some a) t = if w < aw then some a else some t := by
  simp only [bannerFold, hw, if_neg hle, haw]

/-- A qualifying thumbnail replaces an empty accumulator. -/
theorem bannerFold_qual_none (t : Thumb) (h : qualifies t) :
    bannerFold none t = some t := by
  obtain ⟨w, hw, hle⟩ := h
  simp only [bannerFold, hw, if_neg hle]

/-- The reducer only ever returns the current thumbnail or the incoming
accumulator. -/
theorem bannerFold_some_cases (acc : Option Thumb) (t x : Thumb)
    (h : bannerFold acc t = some x) : x = t ∨ acc = some x := by
  cases hw : t.width with
  | none =>
    simp only [bannerFold, hw] at h
    exact Or.inr h
  | some w =>
    by_cases hle : w / t.height ≤ 2
    · simp only [bannerFold, hw, if_pos hle] at h
      exact Or.inr h
    · simp only [bannerFold, hw, if_neg hle] at h
      cases acc with
      | none => cases h; exact Or.inl rfl
      | some a =>
        cases haw : a.width with
        | none =>
          simp only [haw] at h
          cases h
          exact Or.inl rfl
        | some aw =>
          simp only [haw] at h
          by_cases hlt : w < aw
          · rw [if_pos hlt] at h
            exact Or.inr h
          · rw [if_neg hlt] at h
            cases h
            exact Or.inl rfl

/-- The reduce returns null exactly when no thumbnail qualifies (and the
accumulator was empty). -/
theorem foldl_bannerFold_eq_none :
    ∀ (ts : List Thumb) (acc : Option Thumb),
      ts.foldl bannerFold acc = none ↔ acc = none ∧ ∀ t ∈ ts, ¬qualifies t
  | [] => by simp
  | t :: ts' => by
    intro acc
    rw [List.foldl_cons, foldl_bannerFold_eq_none ts' (bannerFold acc t)]
    constructor
    · rintro ⟨h1, h2⟩
      by_cases hq : qualifies t
      · obtain ⟨x, hx⟩ := bannerFold_qual_isSome acc t hq
        rw [hx] at h1
        cases h1
      · rw [bannerFold_not_qual acc t hq] at h1
        refine ⟨h1, ?_⟩
        intro s hs
        rcases List.mem_cons.mp hs with rfl | hs'
        · exact hq
        · exact h2 s hs'
    · rintro ⟨h1, h2⟩
      have hq := h2 t (List.mem_cons_self t ts')
      rw [bannerFold_not_qual acc t hq]
      exact ⟨h1, fun s hs => h2 s (List.mem_cons_of_mem _ hs)⟩

/-- Invariant of the banner reduce: starting from a qualifying (or empty)
accumulator, the outcome is a qualifying thumbnail from the list (or the
accumulator), of maximal width among all qualifying thumbnails seen, and
at least as wide as the accumulator. -/
theorem foldl_bannerFold_spec :
    ∀ (ts : List Thumb) (acc : Option Thumb) (b : Thumb),
      (∀ a, acc = some a → qualifies a) →
      ts.foldl bannerFold acc = some b →
      qualifies b ∧ (b ∈ ts ∨ acc = some b) ∧
      (∀ t ∈ ts, ∀ w wb, t.width = some w → ¬w / t.height ≤ 2 →
        b.width = some wb → w ≤ wb) ∧
      (∀ a aw wb, acc = some a → a.width = some aw → b.width = some wb → aw ≤ wb)
  | [] => by
    intro acc b hacc h
    simp only [List.foldl_nil] at h
    refine ⟨hacc b h, Or.inr h, by simp, ?_⟩
    intro a aw wb ha haw hwb
    rw [h] at ha
    cases ha
    rw [haw] at hwb
    cases hwb
    exact le_refl _
  | t :: ts' => by
    intro acc b hacc h
    rw [List.foldl_cons] at h
    by_cases hq : qualifies t
    · obtain ⟨w, hw, hle⟩ := hq
      have hacc' : ∀ x, bannerFold acc t = some x → qualifies x := by
        intro x hx
        rcases bannerFold_some_cases acc t x hx with rfl | hx'
        · exact ⟨w, hw, hle⟩
        · exact hacc x hx'
      obtain ⟨hqb, hmem, hmax, haccle⟩ := foldl_bannerFold_spec ts' (bannerFold acc t) b hacc' h
      refine ⟨hqb, ?_, ?_, ?_⟩
      · rcases hmem with h1 | h1
        · exact Or.inl (List.mem_cons_of_mem _ h1)
        · rcases bannerFold_some_cases acc t b h1 with rfl | h2
          · exact Or.inl (List.mem_cons_self _ _)
          · exact Or.inr h2
      · intro s hs ws wb hws hles hwb
        rcases List.mem_cons.mp hs with rfl | hs'
        · rw [hw] at hws
          cases hws
          cases hab : acc with
          | none =>
            exact haccle s w wb (by rw [hab, bannerFold_qual_none s ⟨w, hw, hle⟩]) hw hwb
          | some a =>
            obtain ⟨aw', haw', _⟩ := hacc a hab
            have hbf := bannerFold_qual_some s a w aw' hw hle haw'
            by_cases hlt : w < aw'
            · have haux : aw' ≤ wb := haccle a aw' wb (by rw [hab, hbf, if_pos hlt]) haw' hwb
              exact le_trans (le_of_lt hlt) haux
            · exact haccle s w wb (by rw [hab, hbf, if_neg hlt]) hw hwb
        · exact hmax s hs' ws wb hws hles hwb
      · intro a aw wb hab haw hwb
        have hbf := bannerFold_qual_some t a w aw hw hle haw
        by_cases hlt : w < aw
        · exact haccle a aw wb (by rw [hab, hbf, if_pos hlt]) haw hwb
        · have h1 : w ≤ wb := haccle t w wb (by rw [hab, hbf, if_neg hlt]) hw hwb
          exact le_trans (le_of_not_lt hlt) h1
    · rw [bannerFold_not_qual acc t hq] at h
      obtain ⟨hqb, hmem, hmax, haccle⟩ := foldl_bannerFold_spec ts' acc b hacc h
      refine ⟨hqb, ?_, ?_, haccle⟩
      · rcases hmem with h1 | h1
        · exact Or.inl (List.mem_cons_of_mem _ h1)
        · exact Or.inr h1
      · intro s hs ws wb hws hles hwb
        rcases List.mem_cons.mp hs with rfl | hs'
        · exact absurd ⟨ws, hws, hles⟩ hq
        · exact hmax s hs' ws wb hws hles hwb

/-- A thumbnail of aspect ratio 3, width 300. -/
def thumbNarrow : Thumb := ⟨"a", some 300, 100, "urlA"⟩

/-- A thumbnail of aspect ratio 3, width 600. -/
def thumbWide : Thumb := ⟨"b", some 600, 200, "urlB"⟩

/-- C7 counterexample: both thumbnails have width information and aspect
ratio 3 > 2, so the claim says the narrowest (width 300) is selected as
the banner.  The reducer keeps its accumulator only when the incoming
width is strictly smaller (`t.width < acc.width ? acc : t`), so it
selects the widest qualifying image: width 600. -/
theorem c7_counterexample :
    banner [thumbNarrow, thumbWide] = some thumbWide ∧
    qualifies thumbNarrow ∧ qualifies thumbWide ∧
    thumbNarrow.width = some 300 ∧ thumbWide.width = some 600 := by
  refine ⟨?_, ⟨300, rfl, by norm_num [thumbNarrow]⟩, ⟨600, rfl, by norm_num [thumbWide]⟩, rfl, rfl⟩
  simp only [banner, List.foldl_cons, List.foldl_nil, bannerFold, thumbNarrow, thumbWide]
  norm_num

/-- C7 (amended): `fetchMetaForChannel` selects as the banner a widest
(maximum-width) image among the thumbnails that have width information
and pass the reducer's aspect-ratio test `width / height > 2`; images
without width information are never selected, and if no image passes, no
banner is fetched (the reduce returns null). -/
theorem c7_banner_selection (ts : List Thumb) :
    (banner ts = none ↔ ∀ t ∈ ts, ¬qualifies t) ∧
    (∀ b, banner ts = some b →
      b ∈ ts ∧ qualifies b ∧
      ∀ t ∈ ts, ∀ w wb, t.width = some w → ¬w / t.height ≤ 2 →
        b.width = some wb → w ≤ wb) := by
  constructor
  · unfold banner
    rw [foldl_bannerFold_eq_none ts none]
    simp
  · intro b hb
    obtain ⟨hqb, hmem, hmax, _⟩ :=
      foldl_bannerFold_spec ts none b (by intro a ha; cases ha) hb
    rcases hmem with h | h
    · exact ⟨h, hqb, hmax⟩
    · cases h

/-- C7 witness: at the concrete two-thumbnail document the theorem
yields membership, qualification and maximality of the selected banner's
width against the width-300 thumbnail. -/
theorem c7_banner_selection_witness :
    thumbWide ∈ [thumbNarrow, thumbWide] ∧ qualifies thumbWide ∧
    (300 : ℚ) ≤ 600 := by
  have hsel : banner [thumbNarrow, thumbWide] = some thumbWide := by
    simp only [banner, List.foldl_cons, List.foldl_nil, bannerFold, thumbNarrow, thumbWide]
    norm_num
  have h := (c7_banner_selection [thumbNarrow, thumbWide]).2 thumbWide hsel
  refine ⟨h.1, h.2.1, ?_⟩
  exact h.2.2 thumbNarrow (List.mem_cons_self _ _) 300 600 rfl
    (by norm_num [thumbNarrow]) rfl

/-! ### C10 — LRUCache invariants -/

section LRULemmas

variable {K V : Type} [DecidableEq K]

/-- Unfolding of the insertion-ordered lookup over a cons cell. -/
theorem mapGet_cons (e : K × V) (c : List (K × V)) (k : K) :
    mapGet (e :: c) k = if e.1 = k then some e.2 else mapGet c k := by
  by_cases he : e.1 = k
  · simp [mapGet, List.find?, he]
  · simp [mapGet, List.find?, he]

omit [DecidableEq K] in
/-- Removing an element failing the filter strictly shrinks the list. -/
theorem length_filter_lt (p : K × V → Bool) :
    ∀ (l : List (K × V)) (x : K × V), x ∈ l → p x = false →
      (l.filter p).length < l.length
  | [], x, hx, _ => absurd hx (List.not_mem_nil x)
  | e :: l, x, hx, hpx => by
    by_cases he : p e
    · rw [List.filter_cons_of_pos he]
      rcases List.mem_cons.mp hx with rfl | hx'
      · rw [he] at hpx; cases hpx
      · simpa using length_filter_lt p l x hx' hpx
    · rw [List.filter_cons_of_neg (by simpa using he)]
      simp only [List.length_cons]
      exact Nat.lt_succ_of_le (List.length_filter_le p l)

/-- A present key makes the key-dropping filter strictly shrink. -/
theorem filter_length_lt_of_mapGet_some {c : List (K × V)} {k : K} {v : V}
    (h : mapGet c k = some v) :
    (c.filter (fun e => e.1 ≠ k)).length < c.length := by
  unfold mapGet at h
  cases hf : c.find? (fun e => e.1 = k) with
  | none => rw [hf] at h; cases h
  | some e =>
    have hp := List.find?_some hf
    have hkey : e.1 = k := by simpa using hp
    exact length_filter_lt _ c e (List.mem_of_find?_eq_some hf) (by simp [hkey])

/-- The key-dropping filter really removes the key. -/
theorem mapGet_filter_self (k : K) :
    ∀ c : List (K × V), mapGet (c.filter (fun e => e.1 ≠ k)) k = none
  | [] => rfl
  | e :: c => by
    by_cases he : e.1 = k
    · rw [List.filter_cons_of_neg (by simp [he])]
      exact mapGet_filter_self k c
    · rw [List.filter_cons_of_pos (by simp [he]), mapGet_cons, if_neg he]
      exact mapGet_filter_self k c

/-- The key-dropping filter leaves every other key's lookup unchanged. -/
theorem mapGet_filter_other {k k' : K} (hne : k' ≠ k) :
    ∀ c : List (K × V), mapGet (c.filter (fun e => e.1 ≠ k)) k' = mapGet c k'
  | [] => rfl
  | e :: c => by
    by_cases hek : e.1 = k
    · rw [List.filter_cons_of_neg (by simp [hek]), mapGet_cons,
        if_neg (show ¬e.1 = k' by rw [hek]; exact Ne.symm hne)]
      exact mapGet_filter_other hne c
    · rw [List.filter_cons_of_pos (by simp [hek]), mapGet_cons, mapGet_cons]
      by_cases he' : e.1 = k'
      · rw [if_pos he', if_pos he']
      · rw [if_neg he', if_neg he']
        exact mapGet_filter_other hne c

/-- Lookup in an append when the left part misses. -/
theorem mapGet_append_of_none {l1 : List (K × V)} {k : K}
    (h : mapGet l1 k = none) (l2 : List (K × V)) :
    mapGet (l1 ++ l2) k = mapGet l2 k := by
  induction l1 with
  | nil => rfl
  | cons e l1 ih =>
    rw [mapGet_cons] at h
    by_cases he : e.1 = k
    · rw [if_pos he] at h
      cases h
    · rw [if_neg he] at h
      rw [List.cons_append, mapGet_cons, if_neg he]
      exact ih h

/-- Lookup in an append when the left part hits. -/
theorem mapGet_append_of_some {l1 : List (K × V)} {k : K} {v : V}
    (h : mapGet l1 k = some v) (l2 : List (K × V)) :
    mapGet (l1 ++ l2) k = some v := by
  induction l1 with
  | nil => cases h
  | cons e l1 ih =>
    rw [mapGet_cons] at h
    rw [List.cons_append, mapGet_cons]
    by_cases he : e.1 = k
    · rw [if_pos he] at h
      rw [if_pos he]
      exact h
    · rw [if_neg he] at h
      rw [if_neg he]
      exact ih h

/-- Lookup of the key of a singleton. -/
theorem mapGet_singleton_self (k : K) (v : V) :
    mapGet ([(k, v)] : List (K × V)) k = some v := by
  rw [mapGet_cons, if_pos rfl]

/-- Lookup of another key in a singleton. -/
theorem mapGet_singleton_other {k k' : K} (hne : k' ≠ k) (v : V) :
    mapGet ([(k, v)] : List (K × V)) k' = none := by
  rw [mapGet_cons, if_neg (fun h => hne h.symm)]
  rfl

/-- Every single cache operation preserves the size bound. -/
theorem applyLRUOp_length_le (m : Nat) (hm : 0 < m) (c : List (K × V))
    (op : LRUOp K V) (hc : c.length ≤ m) :
    (applyLRUOp m c op).length ≤ m := by
  cases op with
  | get k =>
    simp only [applyLRUOp]
    cases h : mapGet c k with
    | none => simpa [lruGet, h] using hc
    | some v =>
      have hlt := filter_length_lt_of_mapGet_some h
      simp only [lruGet, h, List.length_append, List.length_cons, List.length_nil]
      omega
  | set k v =>
    simp only [applyLRUOp, lruSet]
    by_cases h : (mapGet c k).isSome
    · rw [if_pos h]
      obtain ⟨v', hv'⟩ := Option.isSome_iff_exists.mp h
      have hlt := filter_length_lt_of_mapGet_some hv'
      simp only [List.length_append, List.length_cons, List.length_nil]
      omega
    · rw [if_neg h]
      by_cases hfull : c.length ≥ m
      · rw [if_pos hfull]
        have hpos : 0 < c.length := lt_of_lt_of_le hm hfull
        simp only [List.length_append, List.length_drop, List.length_cons, List.length_nil]
        omega
      · rw [if_neg hfull]
        simp only [List.length_append, List.length_cons, List.length_nil]
        omega
  | del k =>
    simpa only [applyLRUOp, lruDelete] using le_trans (List.length_filter_le _ _) hc
  | clear => simp [applyLRUOp]

/-- The size bound is an invariant of every operation sequence. -/
theorem foldl_applyLRUOp_length_le (m : Nat) (hm : 0 < m) :
    ∀ (ops : List (LRUOp K V)) (c : List (K × V)), c.length ≤ m →
      (ops.foldl (applyLRUOp m) c).length ≤ m
  | [], _, hc => hc
  | op :: ops, c, hc => by
    rw [List.foldl_cons]
    exact foldl_applyLRUOp_length_le m hm ops _ (applyLRUOp_length_le m hm c op hc)

end LRULemmas

/-- C10: for every positive capacity, (a) no sequence of get/set/delete/
clear operations ever grows the cache beyond `maxSize` entries; (b) `set`
with a new key on a full cache evicts exactly the first — least recently
used — entry and appends the new pair at the most-recent end; (c) `get`
on a present key returns its value, leaves every key's lookup unchanged,
and moves the accessed pair to the most-recent (last) position. -/
theorem c10_lru_cache {K V : Type} [DecidableEq K] (m : Nat) (hm : 0 < m) :
    (∀ ops : List (LRUOp K V), (runLRUOps m ops).length ≤ m) ∧
    (∀ (c : List (K × V)) (k : K) (v : V), c.length = m → mapGet c k = none →
      lruSet m c k v = c.drop 1 ++ [(k, v)]) ∧
    (∀ (c : List (K × V)) (k : K) (v : V), mapGet c k = some v →
      (lruGet c k).1 = some v ∧
      (∀ k', mapGet (lruGet c k).2 k' = mapGet c k') ∧
      (lruGet c k).2.getLast? = some (k, v)) := by
  refine ⟨?_, ?_, ?_⟩
  · intro ops
    exact foldl_applyLRUOp_length_le m hm ops [] (by simp)
  · intro c k v hlen hmiss
    simp only [lruSet, hmiss]
    rw [if_neg (by simp), if_pos (show c.length ≥ m from le_of_eq hlen.symm)]
  · intro c k v h
    have h2 : lruGet c k = (some v, c.filter (fun e => e.1 ≠ k) ++ [(k, v)]) := by
      simp [lruGet, h]
    rw [h2]
    dsimp only
    refine ⟨rfl, ?_, ?_⟩
    · intro k'
      by_cases hk : k' = k
      · subst hk
        rw [mapGet_append_of_none (mapGet_filter_self k' c) [(k', v)],
          mapGet_singleton_self, h]
      · cases hx : mapGet (c.filter (fun e => e.1 ≠ k)) k' with
        | some x =>
          rw [mapGet_append_of_some hx, ← hx, mapGet_filter_other hk c]
        | none =>
          rw [mapGet_append_of_none hx, mapGet_singleton_other hk,
            ← mapGet_filter_other hk c, hx]
    · exact List.getLast?_concat _

/-- C10 witness: capacity 2; a concrete operation sequence stays within
bound, a concrete full-cache insertion evicts the oldest entry, and a
concrete hit is read back. -/
theorem c10_lru_cache_witness :
    (runLRUOps (K := Nat) (V := Nat) 2
      [.set 1 10, .set 2 20, .get 1, .set 3 30]).length ≤ 2 ∧
    lruSet 2 [(1, 10), (2, 20)] 3 (30 : Nat) = [(1, 10), (2, 20)].drop 1 ++ [(3, 30)] ∧
    (lruGet [(1, 10), (2, 20)] 1).1 = some 10 ∧
    mapGet (lruGet [(1, (10 : Nat)), (2, 20)] 1).2 2 = mapGet [(1, 10), (2, 20)] 2 ∧
    (lruGet [(1, (10 : Nat)), (2, 20)] 1).2.getLast? = some (1, 10) :=
  ⟨(c10_lru_cache 2 (by decide)).1 _,
   (c10_lru_cache 2 (by decide)).2.1 [(1, 10), (2, 20)] 3 30 (by decide) (by decide),
   ((c10_lru_cache 2 (by decide)).2.2 [(1, 10), (2, 20)] 1 10 (by decide)).1,
   ((c10_lru_cache 2 (by decide)).2.2 [(1, 10), (2, 20)] 1 10 (by decide)).2.1 2,
   ((c10_lru_cache 2 (by decide)).2.2 [(1, 10), (2, 20)] 1 10 (by decide)).2.2⟩

end LocalTube
